import Mathlib

/-!
A verification development for the dependency-graph engine of the `codesnap`
repository (`codesnap/analyzer.py`, class `ImportAnalyzer`).

Modelling conventions (a shallow embedding of the Python code):

* A filesystem path is a list of segments (`FPath`); `[]` is the filesystem
  root `/`.  All paths handled by the engine are absolute.
* The filesystem is a finite map from file paths to contents
  (`none` models a file whose `read_text` raises, i.e. an unreadable or
  undecodable file) together with a list of existing directories.
* Python dictionaries are insertion-ordered association lists; Python sets
  are modelled as duplicate-free lists in insertion order (the engine only
  ever consumes membership, emptiness, and sorted views of these sets, so
  the representation order is irrelevant to every result proved below).
* `str.split` / `pathlib` operations are translated segment-wise;
  `re` patterns are translated to equivalent explicit string scanners
  (`$` is modelled as end-of-string: no path in scope carries a trailing
  newline).
* Exceptions are modelled with `Except Unit`; the `try/except` in
  `analyze_file` catches them.
* The depth-first search of `_detect_circular_dependencies` is translated
  with a fuel parameter; the fuel chosen by the top-level entry point is a
  bound on the recursion depth, which never exceeds one plus the number of
  distinct nodes because every recursing call inserts a fresh node into the
  visited set.
-/

abbrev FPath := List String

/-- `str.startswith`, computed on the character lists. -/
def strStartsWith (s pre : String) : Bool :=
  pre.toList.isPrefixOf s.toList

/-- `str.endswith`, computed on the character lists. -/
def strEndsWith (s suf : String) : Bool :=
  suf.toList.isSuffixOf s.toList

/-- Helper for `splitOnChar`: `acc` holds the current field reversed. -/
def splitOnCharAux (sep : Char) : List Char → List Char → List String
  | [], acc => [String.mk acc.reverse]
  | c :: cs, acc =>
    if c = sep then String.mk acc.reverse :: splitOnCharAux sep cs []
    else splitOnCharAux sep cs (c :: acc)

/-- `str.split(sep)` for a one-character separator: `"." .split "."` is
`["", ""]` and `"".split "."` is `[""]`, as in Python. -/
def splitOnChar (sep : Char) (s : String) : List String :=
  splitOnCharAux sep s.toList []

/-- Lexicographic comparison of character lists by code point. -/
def charListLe : List Char → List Char → Bool
  | [], _ => true
  | _ :: _, [] => false
  | a :: as, b :: bs => if a = b then charListLe as bs else decide (a < b)

/-- Python string `<=`: lexicographic by code point. -/
def strLe (a b : String) : Bool := charListLe a.toList b.toList

/-- Python string `<=` as a decidable relation (for the sort model). -/
def strRel (a b : String) : Prop := strLe a b = true

instance : DecidableRel strRel := fun a b => Bool.decEq (strLe a b) true

/-- Python's built-in `sorted` is a stable sort; `List.insertionSort` is
extensionally the same function for any total preorder, and is the model
of `sorted` used throughout this development.  Totality of the
lexicographic comparison. -/
instance : IsTotal String strRel :=
  ⟨fun s t => by
    show charListLe s.toList t.toList = true ∨ charListLe t.toList s.toList = true
    generalize s.toList = a
    generalize t.toList = b
    induction a generalizing b with
    | nil => left; rfl
    | cons x xs ih =>
      cases b with
      | nil => right; rfl
      | cons y ys =>
        by_cases hxy : x = y
        · subst hxy
          rcases ih ys with h | h
          · left; simpa [charListLe] using h
          · right; simpa [charListLe] using h
        · rcases lt_or_gt_of_ne hxy with h | h
          · left; simp [charListLe, hxy, h]
          · right; simp [charListLe, Ne.symm hxy, h]⟩

/-- Transitivity of the lexicographic comparison. -/
instance : IsTrans String strRel :=
  ⟨fun s t u => by
    show charListLe s.toList t.toList = true →
      charListLe t.toList u.toList = true →
      charListLe s.toList u.toList = true
    generalize s.toList = a
    generalize t.toList = b
    generalize u.toList = c
    induction a generalizing b c with
    | nil => intro _ _; rfl
    | cons x xs ih =>
      intro hab hbc
      cases b with
      | nil => simp [charListLe] at hab
      | cons y ys =>
        cases c with
        | nil => simp [charListLe] at hbc
        | cons z zs =>
          by_cases hxy : x = y <;> by_cases hyz : y = z
          · subst hxy; subst hyz
            simp only [charListLe, if_pos rfl] at hab hbc ⊢
            exact ih ys zs hab hbc
          · subst hxy
            simp only [charListLe, if_pos rfl, if_neg hyz] at hbc ⊢
            exact hbc
          · subst hyz
            simp only [charListLe, if_neg hxy] at hab ⊢
            exact hab
          · simp only [charListLe, if_neg hxy] at hab
            simp only [charListLe, if_neg hyz] at hbc
            have hxz : x < z :=
              lt_trans (of_decide_eq_true hab) (of_decide_eq_true hbc)
            simp [charListLe, ne_of_lt hxz, hxz]⟩

/-- A filesystem snapshot: regular files with their text contents
(`none` models an unreadable file) and the set of directories. -/
structure FS where
  files : List (FPath × Option String)
  dirs : List FPath
deriving DecidableEq

/-- `Path.is_file` (and, for paths bound to files, `Path.exists`). -/
def FS.isFile (fs : FS) (p : FPath) : Bool :=
  fs.files.any (fun e => e.1 = p)

/-- `Path.is_dir`. -/
def FS.isDir (fs : FS) (p : FPath) : Bool :=
  fs.dirs.any (fun d => d = p)

/-- `Path.exists`: the path is a regular file or a directory. -/
def FS.pexists (fs : FS) (p : FPath) : Bool :=
  fs.isFile p || fs.isDir p

/-- `Path.read_text`: contents of a regular file, `none` when the read
raises (missing file, directory, I/O or decode error). -/
def FS.readText (fs : FS) (p : FPath) : Option String :=
  match fs.files.find? (fun e => e.1 = p) with
  | some e => e.2
  | none => none

/-- `Path.parent`; the parent of the root is the root itself. -/
def parentDir (p : FPath) : FPath := p.dropLast

/-- `Path.name`: the final segment (the root has name `""`). -/
def lastSeg (p : FPath) : String := p.getLastD ""

/-- `Path` division `p / seg`: pathlib drops empty components. -/
def joinRel (p : FPath) (segs : List String) : FPath :=
  p ++ segs.filter (fun s => ¬ s = "")

/-- Apply `Path.parent` `n` times (the `for _ in range(dot_count - 1)`
ascent loop). -/
def ascend (p : FPath) : Nat → FPath
  | 0 => p
  | n + 1 => ascend (parentDir p) n

/-- `Path.relative_to(root)` rendered as a string with `/` separators;
`none` models the `ValueError` raised when `root` is not a prefix. -/
def relativeTo (root p : FPath) : Option String :=
  if root.isPrefixOf p then some (String.intercalate "/" (p.drop root.length))
  else none

/-- Index of the last `.` in a list of characters, if any. -/
def lastDotIdx : List Char → Option Nat
  | [] => none
  | c :: cs =>
    match lastDotIdx cs with
    | some k => some (k + 1)
    | none => if c = '.' then some 0 else none

/-- `pathlib.PurePath.suffix` of a file name: the part from the final dot,
provided that dot is neither the first nor the last character. -/
def pySuffix (name : String) : String :=
  let cs := name.toList
  match lastDotIdx cs with
  | some k => if 0 < k ∧ k + 1 < cs.length then String.mk (cs.drop k) else ""
  | none => ""

/-- `pathlib.PurePath.with_suffix(ext)`: replace the suffix of the final
segment (append when it has none). -/
def withSuffix (p : FPath) (ext : String) : FPath :=
  let name := lastSeg p
  let suf := pySuffix name
  parentDir p ++ [String.mk (name.toList.take (name.length - suf.length)) ++ ext]

/-- `ImportAnalyzer._is_internal_import`: a dotted Python module string is
classified internal if it starts with a dot, or a same-named path, `.py`
file or package `__init__.py` exists under the project root. -/
def is_internal_import (fs : FS) (root : FPath) (modulePath : String) : Bool :=
  if strStartsWith modulePath "." then true
  else
    let potential := joinRel root (splitOnChar '.' modulePath)
    fs.pexists potential ||
      fs.pexists (parentDir potential ++ [lastSeg potential ++ ".py"]) ||
      fs.pexists (joinRel potential ["__init__.py"])

/-- `ImportAnalyzer._module_to_file_path`: resolve a dotted Python module
string (relative or absolute) to a concrete file path, or `none`.

The relative branch mirrors the source exactly: `module_path.split(".")`
yields one empty string per leading dot, plus a final empty string when the
token ends in a dot (so the bare token `"."` yields two empty strings); the
ascent is `dot_count - 1` parent steps where `dot_count` counts the leading
empty strings. -/
def module_to_file_path (fs : FS) (root : FPath) (modulePath : String)
    (filePath : FPath) : Option FPath :=
  if strStartsWith modulePath "." then
    let parts0 := splitOnChar '.' modulePath
    let dotCount := (parts0.takeWhile (fun s => s = "")).length
    let parts := parts0.dropWhile (fun s => s = "")
    let currentDir := ascend (parentDir filePath) (dotCount - 1)
    if parts.isEmpty then some (joinRel currentDir ["__init__.py"])
    else
      let target := joinRel currentDir parts
      if fs.pexists (parentDir target ++ [lastSeg target ++ ".py"]) then
        some (parentDir target ++ [lastSeg target ++ ".py"])
      else if fs.pexists (joinRel target ["__init__.py"]) then
        some (joinRel target ["__init__.py"])
      else none
  else
    let target := joinRel root (splitOnChar '.' modulePath)
    if fs.pexists target && fs.isDir target &&
        fs.pexists (joinRel target ["__init__.py"]) then
      some (joinRel target ["__init__.py"])
    else if fs.pexists (parentDir target ++ [lastSeg target ++ ".py"]) then
      some (parentDir target ++ [lastSeg target ++ ".py"])
    else none

/-- `os.path.normpath` applied to an already-normalized absolute base
followed by further raw segments: drop empty and `.` segments, let `..`
remove the previous segment (at the root it stays at the root). -/
def normSegs (acc : FPath) : List String → FPath
  | [] => acc
  | s :: rest =>
    if s = "" then normSegs acc rest
    else if s = "." then normSegs acc rest
    else if s = ".." then normSegs acc.dropLast rest
    else normSegs (acc ++ [s]) rest

/-- `ImportAnalyzer._js_import_to_file_path`: resolve a JS/TS import path
(only attempted for paths starting with `.`): the normalized path itself if
it is an existing regular file, else the first existing `with_suffix`
candidate over `.js .jsx .ts .tsx .json` in order, else the first existing
`index.<ext>` inside the path, else `none`.  When the normalized target
has an empty final name (it is the filesystem root), the first
`with_suffix` probe of the extension loop raises `ValueError` before any
existence check, modelled by `Except.error`. -/
def js_import_to_file_path (fs : FS) (importPath : String)
    (filePath : FPath) : Except Unit (Option FPath) :=
  if strStartsWith importPath "." then
    let baseDir := parentDir filePath
    let target := normSegs baseDir (splitOnChar '/' importPath)
    let extensions := [".js", ".jsx", ".ts", ".tsx", ".json"]
    if fs.pexists target && fs.isFile target then Except.ok (some target)
    else if lastSeg target = "" then Except.error ()
    else
      match extensions.find? (fun ext => fs.pexists (withSuffix target ext)) with
      | some ext => Except.ok (some (withSuffix target ext))
      | none =>
        match extensions.find? (fun ext => fs.pexists (target ++ ["index" ++ ext])) with
        | some ext => Except.ok (some (target ++ ["index" ++ ext]))
        | none => Except.ok none
  else Except.ok none

/-- Regex `\s`: space, tab, newline, carriage return, vertical tab, form
feed. -/
def wsChar (c : Char) : Bool :=
  c = ' ' || c = '\t' || c = '\n' || c = '\r' || c = '\x0b' || c = '\x0c'

/-- Regex `\w` (ASCII range): letters, digits, underscore. -/
def wordChar (c : Char) : Bool := c.isAlphanum || c = '_'

/-- Character class `[\w.]` of the Python import patterns. -/
def moduleChar (c : Char) : Bool := wordChar c || c = '.'

/-- Match `<kw>\s+([\w.]+)` at the head of `cs`: the keyword, at least one
whitespace character (`\s` spans newlines), then a maximal nonempty run of
word characters and dots (the captured group).  Returns the group and the
remaining input. -/
def matchKwModule (kw : List Char) (cs : List Char) : Option (String × List Char) :=
  if kw.isPrefixOf cs then
    let rest := cs.drop kw.length
    match rest with
    | [] => none
    | c :: _ =>
      if wsChar c then
        let rest2 := rest.dropWhile wsChar
        let tok := rest2.takeWhile moduleChar
        if tok.isEmpty then none
        else some (String.mk tok, rest2.drop tok.length)
      else none
  else none

/-- The optional alias group `(?:\s+as\s+\w+)?`: consumed (greedily) when
it matches at the head of `cs`, skipped otherwise.  Only the end position
of the overall match changes; the captured module string does not. -/
def pyAsClause (cs : List Char) : List Char :=
  match cs with
  | [] => cs
  | c :: _ =>
    if wsChar c then
      let r1 := cs.dropWhile wsChar
      if "as".toList.isPrefixOf r1 then
        let r2 := r1.drop 2
        match r2 with
        | [] => cs
        | d :: _ =>
          if wsChar d then
            let r3 := r2.dropWhile wsChar
            let w := r3.takeWhile wordChar
            if w.isEmpty then cs else r3.drop w.length
          else cs
      else cs
    else cs

/-- Attempt `^\s*import\s+([\w.]+)(?:\s+as\s+\w+)?` at a line-start
position: leading whitespace (which may span further newlines), the
keyword, the captured module string, and the greedy optional alias. -/
def pyMatchImport (cs : List Char) : Option (String × List Char) :=
  (matchKwModule "import".toList (cs.dropWhile wsChar)).map
    (fun r => (r.1, pyAsClause r.2))

/-- Attempt `^\s*from\s+([\w.]+)\s+import` at a line-start position: the
match (and the consumed region) ends right after the second keyword. -/
def pyMatchFrom (cs : List Char) : Option (String × List Char) :=
  match matchKwModule "from".toList (cs.dropWhile wsChar) with
  | none => none
  | some (tok, rest) =>
    match rest with
    | [] => none
    | c :: _ =>
      if wsChar c && "import".toList.isPrefixOf (rest.dropWhile wsChar) then
        some (tok, (rest.dropWhile wsChar).drop 6)
      else none

/-- Advance past the next newline: the following line-start position. -/
def dropPastNewline (cs : List Char) : List Char :=
  (cs.dropWhile (fun c => ¬ c = '\n')).drop 1

/-- `re.finditer` with a `re.MULTILINE` `^`-anchored pattern: a match can
only begin at a line start, so on failure the scan advances to the next
line start, and after a match (whose end never sits at a line start, as
both patterns end in word characters) it resumes at the first line start
after the match.  `fuel` is one more than the input length: every step
consumes at least one character. -/
def pyScanAux (tryM : List Char → Option (String × List Char)) :
    Nat → List Char → List String
  | 0, _ => []
  | fuel + 1, cs =>
    match tryM cs with
    | some (tok, rest) => tok :: pyScanAux tryM fuel (dropPastNewline rest)
    | none =>
      if cs.isEmpty then []
      else pyScanAux tryM fuel (dropPastNewline cs)

/-- `_analyze_python_imports` token extraction: both multiline-anchored
patterns are run over the whole content, in order. -/
def pyExtractTokens (content : String) : List String :=
  pyScanAux pyMatchImport (content.length + 1) content.toList ++
    pyScanAux pyMatchFrom (content.length + 1) content.toList

/-- Quote characters of the JS import patterns. -/
def quoteChar (c : Char) : Bool := c = Char.ofNat 39 || c = '"'

/-- Match `['\x22]([^'\x22]+)['\x22]` at the head of `cs`: an opening
quote, a maximal nonempty run of non-quote characters (the captured
group), and a closing quote (either kind). -/
def matchQuoted (cs : List Char) : Option (String × List Char) :=
  match cs with
  | [] => none
  | c :: rest =>
    if quoteChar c then
      let tok := rest.takeWhile (fun d => ¬ quoteChar d)
      let rest2 := rest.drop tok.length
      match rest2 with
      | [] => none
      | d :: rest3 =>
        if tok.isEmpty then none
        else if quoteChar d then some (String.mk tok, rest3) else none
    else none

/-- Match `<kw>\s*\(\s*` followed by a quoted group (the `require(...)` and
`dynamic(...)` patterns). -/
def matchCallQuoted (kw : List Char) (cs : List Char) : Option (String × List Char) :=
  if kw.isPrefixOf cs then
    let r1 := (cs.drop kw.length).dropWhile wsChar
    match r1 with
    | [] => none
    | c :: r2 => if c = '(' then matchQuoted (r2.dropWhile wsChar) else none
  else none

/-- Match `<kw>\s+` followed by a quoted group (the side-effect
`import '<path>'` pattern, and the `from '<path>'` tail of the first
pattern). -/
def matchKwQuoted (kw : List Char) (cs : List Char) : Option (String × List Char) :=
  if kw.isPrefixOf cs then
    let rest := cs.drop kw.length
    match rest with
    | [] => none
    | c :: _ => if wsChar c then matchQuoted (rest.dropWhile wsChar) else none
  else none

/-- Scan forward for the earliest `from\s+['\x22]([^'\x22]+)['\x22]` match
without crossing a newline: this is the effect of the lazy `.*?` (which
cannot match a newline) in `import\s+.*?from\s+...`. -/
def scanForFrom : List Char → Option (String × List Char)
  | [] => none
  | c :: rest =>
    match matchKwQuoted "from".toList (c :: rest) with
    | some r => some r
    | none => if c = '\n' then none else scanForFrom rest

/-- Match `import\s+.*?from\s+['\x22]([^'\x22]+)['\x22]` at the head of
`cs`: the keyword, at least one whitespace character (the greedy `\s+` run,
which may span newlines), then the earliest `from ...` tail reachable
without crossing a newline.  A tail can never begin inside the whitespace
run, so taking the maximal run first is equivalent to the regex
backtracking search. -/
def matchFromStyle (cs : List Char) : Option (String × List Char) :=
  if "import".toList.isPrefixOf cs then
    let rest := cs.drop 6
    match rest with
    | [] => none
    | c :: _ => if wsChar c then scanForFrom (rest.dropWhile wsChar) else none
  else none

/-- `re.finditer`: try the matcher at every position from left to right;
on a match, record the captured group and resume after the match.  `fuel`
is the input length: every step consumes at least one character. -/
def scanAux (tryM : List Char → Option (String × List Char)) :
    Nat → List Char → List String
  | 0, _ => []
  | _ + 1, [] => []
  | fuel + 1, c :: rest =>
    match tryM (c :: rest) with
    | some (tok, after) => tok :: scanAux tryM fuel after
    | none => scanAux tryM fuel rest

/-- All captured groups of one pattern over the whole content. -/
def scanMatches (tryM : List Char → Option (String × List Char))
    (content : String) : List String :=
  scanAux tryM content.length content.toList

/-- `_analyze_js_imports` token extraction: the four patterns run in
order over the whole content. -/
def jsExtractTokens (content : String) : List String :=
  scanMatches matchFromStyle content ++
    scanMatches (matchCallQuoted "require".toList) content ++
    scanMatches (matchKwQuoted "import".toList) content ++
    scanMatches (matchCallQuoted "dynamic".toList) content

/-- `set.add`: insertion-ordered model of a Python set of strings. -/
def setAdd (l : List String) (x : String) : List String :=
  if l.contains x then l else l ++ [x]

/-- `_analyze_python_imports` accumulation over the extracted tokens: an
internal token is resolved and its root-relative path appended (a
`relative_to` failure raises, modelled by `Except.error`); an unresolvable
internal token is dropped; an external token is added to the external
set. -/
def pyAccum (fs : FS) (root : FPath) (filePath : FPath) :
    List String → List String × List String →
    Except Unit (List String × List String)
  | [], acc => Except.ok acc
  | tok :: rest, acc =>
    if is_internal_import fs root tok then
      match module_to_file_path fs root tok filePath with
      | some t =>
        match relativeTo root t with
        | some rel => pyAccum fs root filePath rest (acc.1 ++ [rel], acc.2)
        | none => Except.error ()
      | none => pyAccum fs root filePath rest acc
    else pyAccum fs root filePath rest (acc.1, setAdd acc.2 tok)

/-- `ImportAnalyzer._analyze_python_imports`. -/
def analyze_python_imports (fs : FS) (root : FPath) (filePath : FPath)
    (content : String) : Except Unit (List String × List String) :=
  pyAccum fs root filePath (pyExtractTokens content) ([], [])

/-- `_analyze_js_imports` accumulation over the extracted tokens: a token
that starts with neither `.` nor `/` is external; otherwise it is resolved
(a `relative_to` failure raises) or dropped. -/
def jsAccum (fs : FS) (root : FPath) (filePath : FPath) :
    List String → List String × List String →
    Except Unit (List String × List String)
  | [], acc => Except.ok acc
  | tok :: rest, acc =>
    if ¬ strStartsWith tok "." && ¬ strStartsWith tok "/" then
      jsAccum fs root filePath rest (acc.1, setAdd acc.2 tok)
    else
      match js_import_to_file_path fs tok filePath with
      | Except.error e => Except.error e
      | Except.ok (some t) =>
        match relativeTo root t with
        | some rel => jsAccum fs root filePath rest (acc.1 ++ [rel], acc.2)
        | none => Except.error ()
      | Except.ok none => jsAccum fs root filePath rest acc

/-- `ImportAnalyzer._analyze_js_imports`. -/
def analyze_js_imports (fs : FS) (root : FPath) (filePath : FPath)
    (content : String) : Except Unit (List String × List String) :=
  jsAccum fs root filePath (jsExtractTokens content) ([], [])

/-- `ImportAnalyzer.analyze_file`: read the file and dispatch on its
extension; any read failure or exception inside the per-language analyzers
is caught and converted to the empty result. -/
def analyze_file (fs : FS) (root : FPath) (filePath : FPath) :
    List String × List String :=
  match fs.readText filePath with
  | none => ([], [])
  | some content =>
    let ext := pySuffix (lastSeg filePath)
    let r : Except Unit (List String × List String) :=
      if ([".py", ".pyi"] : List String).contains ext then
        analyze_python_imports fs root filePath content
      else if ([".js", ".jsx", ".ts", ".tsx"] : List String).contains ext then
        analyze_js_imports fs root filePath content
      else Except.ok ([], [])
    match r with
    | Except.ok v => v
    | Except.error _ => ([], [])

/-- Python dict lookup `m.get(k)` on an insertion-ordered association
list. -/
def dictGet {α : Type} (m : List (String × α)) (k : String) : Option α :=
  (m.find? (fun e => e.1 = k)).map (fun e => e.2)

/-- Python dict lookup with default, `m.get(k, d)`. -/
def dictGetD {α : Type} (m : List (String × α)) (k : String) (d : α) : α :=
  (dictGet m k).getD d

/-- Python dict assignment `m[k] = v`: update in place, or append a new
key at the end. -/
def dictSet {α : Type} (m : List (String × α)) (k : String) (v : α) :
    List (String × α) :=
  if m.any (fun e => e.1 = k) then
    m.map (fun e => if e.1 = k then (k, v) else e)
  else m ++ [(k, v)]

/-- The `if k not in m: m[k] = []` / `m[k].append(v)` idiom of the reverse
map. -/
def dictAppend (m : List (String × List String)) (k v : String) :
    List (String × List String) :=
  if m.any (fun e => e.1 = k) then
    m.map (fun e => if e.1 = k then (e.1, e.2 ++ [v]) else e)
  else m ++ [(k, [v])]

/-- Keys of an association list, in insertion order. -/
def dictKeys {α : Type} (m : List (String × α)) : List String :=
  m.map (fun e => e.1)

/-- State of the cycle-detecting depth-first search: the global visited
set and the accumulated cycle reports. -/
structure DfsState where
  visited : List String
  cycles : List (List String)
deriving DecidableEq

/-- The recursive `dfs` helper of `_detect_circular_dependencies`.  When
the current file is in the path stack, report the cycle (stack suffix from
its first occurrence, plus the file once more) and stop; when already
visited, stop; otherwise mark visited and recurse over the forward-map
successors with the file pushed on the path.  `fuel` only bounds the
recursion depth, which never reaches it from the top-level entry point. -/
def dfs (g : List (String × List String)) :
    Nat → String → List String → DfsState → DfsState
  | fuel, f, path, st =>
    if path.contains f then
      { st with cycles := st.cycles ++ [path.drop (path.indexOf f) ++ [f]] }
    else if st.visited.contains f then st
    else
      match fuel with
      | 0 => st
      | fuel' + 1 =>
        (dictGetD g f []).foldl
          (fun acc imp => dfs g fuel' imp (path ++ [f]) acc)
          { st with visited := st.visited ++ [f] }

/-- One more than the total size of the forward map: an upper bound for
the DFS recursion depth (each recursing call adds a fresh node, drawn from
the keys and values of `g`, to the visited set). -/
def graphFuel (g : List (String × List String)) : Nat :=
  g.length + ((g.map (fun e => e.2)).flatten).length + 1

/-- `ImportAnalyzer._detect_circular_dependencies`: run the DFS from every
not-yet-visited key of the forward map, in insertion order. -/
def detect_circular_dependencies (g : List (String × List String)) :
    List (List String) :=
  ((dictKeys g).foldl
    (fun st f => if st.visited.contains f then st else dfs g (graphFuel g) f [] st)
    (DfsState.mk [] [])).cycles

/-- The `centrality` dict comprehension (file to importer-list length)
of `analyze_project`, as an item list in insertion order. -/
def centrality_items (rev : List (String × List String)) : List (String × Nat) :=
  rev.map (fun e => (e.1, e.2.length))

/-- Sort relation of the core-file ranking: `sorted(..., key=lambda x:
x[1], reverse=True)` is the stable descending sort by score. -/
def coreRel (a b : String × Nat) : Prop := b.2 ≤ a.2

instance : DecidableRel coreRel := fun a b => Nat.decLe b.2 a.2

instance : IsTotal (String × Nat) coreRel := ⟨fun a b => Nat.le_total b.2 a.2⟩

instance : IsTrans (String × Nat) coreRel :=
  ⟨fun _ _ _ hab hbc => le_trans hbc hab⟩

/-- The `core_files` computation of `analyze_project`: stable descending
sort of the centrality items (modelled by the stable
`List.insertionSort`), truncated to 10 entries. -/
def core_files_of (rev : List (String × List String)) : List (String × Nat) :=
  ((centrality_items rev).insertionSort coreRel).take 10

/-- The four entry-point patterns of `_find_orphaned_files` are anchored
(`^name\.(ext|...)$`): `re.search` succeeds exactly on these full
strings. -/
def entry_point_match (file : String) : Bool :=
  (["index.js", "index.ts", "index.jsx", "index.tsx",
    "main.js", "main.ts", "main.jsx", "main.tsx", "main.py",
    "app.js", "app.ts", "app.jsx", "app.tsx",
    "server.js", "server.ts", "server.jsx", "server.tsx", "server.py"] :
      List String).contains file

/-- Substring test (unanchored `re.search`) on character lists. -/
def listContainsSub : List Char → List Char → Bool
  | haystack, needle =>
    match haystack with
    | [] => needle.isEmpty
    | _ :: rest => needle.isPrefixOf haystack || listContainsSub rest needle

/-- The config-file patterns of `_find_orphaned_files`: six are
end-anchored (`...$`), the two rc-file patterns are fully unanchored. -/
def config_match (file : String) : Bool :=
  strEndsWith file "package.json" || strEndsWith file "tsconfig.json" ||
    listContainsSub file.toList ".eslintrc".toList ||
    listContainsSub file.toList ".prettierrc".toList ||
    strEndsWith file "pyproject.toml" || strEndsWith file "setup.py" ||
    strEndsWith file "requirements.txt" || strEndsWith file "README.md"

/-- The pure part of `_find_orphaned_files`, after the root-relative path
strings of the scanned regular files have been computed: set difference
against the union of the forward-map values, heuristic filtering, and an
alphabetical sort. -/
def orphanCore (rels : List String) (fwd : List (String × List String)) :
    List String :=
  let all_paths := rels.foldl setAdd []
  let imported := ((fwd.map (fun e => e.2)).flatten).foldl setAdd []
  let orphaned := all_paths.filter (fun f => ¬ imported.contains f)
  (orphaned.filter (fun f => ¬ entry_point_match f && ¬ config_match f)).insertionSort strRel

/-- Root-relative path strings of the scanned regular files; a file
outside the project root raises (`Path.relative_to`). -/
def relsOfFiles (fs : FS) (root : FPath) (all_files : List FPath) :
    Except Unit (List String) :=
  (all_files.filter (fun f => fs.isFile f)).mapM (fun f =>
    match relativeTo root f with
    | some r => Except.ok r
    | none => Except.error ())

/-- `ImportAnalyzer._find_orphaned_files`. -/
def find_orphaned_files (fs : FS) (root : FPath) (all_files : List FPath)
    (fwd : List (String × List String)) : Except Unit (List String) :=
  match relsOfFiles fs root all_files with
  | Except.ok rels => Except.ok (orphanCore rels fwd)
  | Except.error e => Except.error e

/-- The three mutable maps of the `ImportAnalyzer` instance. -/
structure BuildState where
  imports_by_file : List (String × List String)
  imported_by : List (String × List String)
  external_imports : List (String × List String)
deriving DecidableEq

/-- The per-file body of the `analyze_project` loop: skip non-files,
compute the root-relative path (raising when the file is outside the
root), analyze, and record the three map entries when the file has
any results. -/
def projectStep (fs : FS) (root : FPath) (st : BuildState) (fp : FPath) :
    Except Unit BuildState :=
  if ¬ fs.isFile fp then Except.ok st
  else
    match relativeTo root fp with
    | none => Except.error ()
    | some rel =>
      if (analyze_file fs root fp).1.isEmpty && (analyze_file fs root fp).2.isEmpty then
        Except.ok st
      else
        Except.ok
          { imports_by_file :=
              dictSet st.imports_by_file rel (analyze_file fs root fp).1
            external_imports :=
              dictSet st.external_imports rel (analyze_file fs root fp).2
            imported_by := (analyze_file fs root fp).1.foldl
              (fun m imp => dictAppend m imp rel) st.imported_by }

/-- The `for file_path in files` loop of `analyze_project`. -/
def projectLoop (fs : FS) (root : FPath) :
    List FPath → BuildState → Except Unit BuildState
  | [], st => Except.ok st
  | fp :: rest, st =>
    match projectStep fs root st fp with
    | Except.ok st2 => projectLoop fs root rest st2
    | Except.error e => Except.error e

/-- The root-relative paths (as `relativeTo` results) of the regular
files in a candidate list, in processing order. -/
def scanRels (fs : FS) (root : FPath) (files : List FPath) :
    List (Option String) :=
  (files.filter (fun f => fs.isFile f)).map (fun f => relativeTo root f)

/-- The aggregate returned by one `analyze_project` call. -/
structure AnalysisResult where
  imports_by_file : List (String × List String)
  imported_by : List (String × List String)
  external_imports : List (String × List String)
  core_files : List (String × Nat)
  circular_dependencies : List (List String)
  orphaned_files : List String
deriving DecidableEq

/-- `ImportAnalyzer.analyze_project`: the three instance maps are reset to
empty at the start of the call (so the incoming state `st0` is discarded),
the loop repopulates them, and the analytics run on the fresh state.
Returns the instance state after the call together with the result. -/
def analyze_project (fs : FS) (root : FPath) (_st0 : BuildState)
    (files : List FPath) : Except Unit (BuildState × AnalysisResult) :=
  match projectLoop fs root files (BuildState.mk [] [] []) with
  | Except.error e => Except.error e
  | Except.ok st =>
    match find_orphaned_files fs root files st.imports_by_file with
    | Except.error e => Except.error e
    | Except.ok orph =>
      Except.ok (st,
        { imports_by_file := st.imports_by_file
          imported_by := st.imported_by
          external_imports := st.external_imports
          core_files := core_files_of st.imported_by
          circular_dependencies := detect_circular_dependencies st.imports_by_file
          orphaned_files := orph })

/-- The display-label computation of `generate_mermaid_diagram`: shorten
only when the label exceeds 30 characters AND splits into more than two
`/`-separated segments. -/
def mermaidDisplayName (file : String) : String :=
  if 30 < file.length then
    let parts := splitOnChar '/' file
    if 2 < parts.length then parts.headD "" ++ "/.../" ++ parts.getLastD ""
    else file
  else file

/-- One node-declaration line of the Mermaid diagram. -/
def mermaidNodeLine (nodeId : String) (file : String) : String :=
  "  " ++ nodeId ++ "[" ++ "\"" ++ mermaidDisplayName file ++ "\"" ++ "];"

/-- `ImportAnalyzer.generate_mermaid_diagram`, as a function of the two
maps.  The `important_files` set is modelled as an insertion-ordered
duplicate-free list (the Python set's iteration order is unspecified; this
is one admissible order). -/
def generate_mermaid_diagram (fwd rev : List (String × List String))
    (max_files : Nat) : String :=
  if fwd.isEmpty then "```mermaid\ngraph TD;\n  A[No imports found];\n```"
  else
    let central := rev.insertionSort (fun a b => b.2.length ≤ a.2.length)
    let important := ((central.take max_files).foldl
      (fun acc e => ((dictGetD fwd e.1 []).take 3).foldl setAdd (setAdd acc e.1))
      []).take max_files
    let nodeIds := important.enum.map (fun e => (e.2, "N" ++ toString e.1))
    let nodeLines := nodeIds.map (fun e => mermaidNodeLine e.2 e.1)
    let edgeLines := fwd.foldl (fun acc e =>
      if nodeIds.any (fun n => n.1 = e.1) then
        acc ++ e.2.filterMap (fun imp =>
          if nodeIds.any (fun n => n.1 = imp) then
            some ("  " ++ dictGetD nodeIds e.1 "" ++ " --> " ++
              dictGetD nodeIds imp "" ++ ";")
          else none)
      else acc) []
    String.intercalate "\n"
      (["```mermaid", "graph TD;"] ++ nodeLines ++ edgeLines ++ ["```"])

/-- Spec-side formulation of the claimed JS resolution (C5 wording):
extensions "tried by appending, in that fixed order".  Differs from the
source only in forming suffix candidates by appending `ext` to the file
name instead of `Path.with_suffix`. -/
def js_resolve_spec_claim (fs : FS) (importPath : String) (filePath : FPath) :
    Option FPath :=
  if strStartsWith importPath "." then
    let target := normSegs (parentDir filePath) (splitOnChar '/' importPath)
    let extensions := [".js", ".jsx", ".ts", ".tsx", ".json"]
    let candidates := (if fs.isFile target then [target] else []) ++
      extensions.map (fun ext => parentDir target ++ [lastSeg target ++ ext]) ++
      extensions.map (fun ext => target ++ ["index" ++ ext])
    candidates.find? (fun c => fs.pexists c)
  else none

/-- Spec-side formulation of the amended JS resolution (C5): a direct
existing-file match first; then, when the normalized path has an empty
final name (it is the filesystem root), the first `with_suffix` probe
raises `ValueError`; otherwise the `with_suffix` candidates (replacing an
existing final extension, appending when there is none) over the five
extensions in order, then the `index.<ext>` candidates in the same order;
the first existing candidate wins, else `none`. -/
def js_resolve_spec_amended (fs : FS) (importPath : String) (filePath : FPath) :
    Except Unit (Option FPath) :=
  if strStartsWith importPath "." then
    let target := normSegs (parentDir filePath) (splitOnChar '/' importPath)
    let extensions := [".js", ".jsx", ".ts", ".tsx", ".json"]
    if fs.isFile target then Except.ok (some target)
    else if lastSeg target = "" then Except.error ()
    else
      Except.ok ((extensions.map (withSuffix target) ++
        extensions.map (fun ext => target ++ ["index" ++ ext])).find?
          (fun c => fs.pexists c))
  else Except.ok none

/-- Project fixture with a file importing `a` and the imported `a.py`. -/
def fsC1 : FS :=
  FS.mk [(["m.py"], some "import a"), (["a.py"], some "")] [[]]

/-- Package fixture for the bare relative import. -/
def fsC3 : FS :=
  FS.mk [(["pkg", "__init__.py"], some ""),
         (["pkg", "mod.py"], some "from . import something")] [[], ["pkg"]]

/-- JS fixture: `a/mod.js` exists, `a/mod.css` does not. -/
def fsC5 : FS :=
  FS.mk [(["a", "mod.js"], some ""), (["a", "x.js"], some "")] [[], ["a"]]

/-- Fixture with an unreadable Python file and a text file. -/
def fsC8 : FS :=
  FS.mk [(["bad.py"], none), (["file.txt"], some "no imports here")] [[]]

/-- A 33-character root-relative path with only two `/`-segments. -/
def labelC9 : String := "aaaaaaaaaaaaaaaaaaaaaaaaaaaa/b.py"

/-- A 31-character root-relative path with three `/`-segments. -/
def labelC9s : String := "src/components/averylongname.js"

/-- Fixture for the orphan-detection witness. -/
def fsC4 : FS :=
  FS.mk [(["index.js"], some ""), (["orphan_module.py"], some "")] [[]]

/-- Builder state after one successful run over `[m.py]` in `fsC1`. -/
def stC6 : BuildState :=
  BuildState.mk [("m.py", ["a.py"])] [("a.py", ["m.py"])] [("m.py", [])]

/-- Result of one successful run over `[m.py]` in `fsC1`. -/
def rC6 : AnalysisResult :=
  AnalysisResult.mk [("m.py", ["a.py"])] [("a.py", ["m.py"])] [("m.py", [])]
    [("a.py", 1)] [] ["m.py"]

/-- C3: the claim says a bare `.` (as in `from . import x`) resolves to
`__init__.py` in the importing file's own directory; the code instead
ascends one extra level — `".".split(".") == ["", ""]` makes `dot_count`
2 — and resolves to the parent directory's `__init__.py`.  By contrast a
one-dot token with a trailing segment (`.mod`) stays in the same
directory, confirming the ascent rule is the intent. -/
theorem C3_bare_dot_evaluation :
    module_to_file_path fsC3 [] "." ["pkg", "mod.py"] = some ["__init__.py"] ∧
    module_to_file_path fsC3 [] "." ["pkg", "mod.py"] ≠ some ["pkg", "__init__.py"] ∧
    module_to_file_path fsC3 [] ".mod" ["pkg", "another.py"] = some ["pkg", "mod.py"] := by
  decide

/-- C5 counterexample: (i) for the import `./mod.css` with `a/mod.js` on
disk, the code's `with_suffix` probing REPLACES the `.css` extension and
resolves to `a/mod.js`, whereas the claimed append-the-extension probing
finds nothing; (ii) for the import `./..` from a root-level file the
normalized target is the filesystem root, where the code's first
`with_suffix` probe raises `ValueError` (caught only at the extractor
boundary, which then discards the whole file's imports) instead of
returning the claimed `None`. -/
theorem C5_counterexample :
    js_import_to_file_path fsC5 "./mod.css" ["a", "x.js"] =
      Except.ok (some ["a", "mod.js"]) ∧
    js_resolve_spec_claim fsC5 "./mod.css" ["a", "x.js"] = none ∧
    js_import_to_file_path fsC5 "./.." ["x.js"] = Except.error () ∧
    js_resolve_spec_claim fsC5 "./.." ["x.js"] = none :=
  ⟨rfl, by decide, rfl, by decide⟩

/-- C5 (amended): JS relative resolution uses, in priority order, the
normalized path itself when it is an existing regular file; when the
normalized path is the filesystem root (empty final name) the probing
raises `ValueError`; otherwise the five `with_suffix` candidates
(replacing an existing final extension, appending when there is none) in
the fixed order `.js .jsx .ts .tsx .json`, then the `index.<ext>`
candidates in the same order, and otherwise resolution returns `none`. -/
theorem C5_resolution_order (fs : FS) (importPath : String) (filePath : FPath) :
    js_import_to_file_path fs importPath filePath =
      js_resolve_spec_amended fs importPath filePath := by
  unfold js_import_to_file_path js_resolve_spec_amended
  by_cases hs : strStartsWith importPath "." = true
  · simp only [hs, if_true]
    set target := normSegs (parentDir filePath) (splitOnChar '/' importPath) with ht
    by_cases hf : fs.isFile target = true
    · have hp : fs.pexists target = true := by
        unfold FS.pexists; rw [hf]; rfl
      simp [hf, hp]
    · have hff : fs.isFile target = false := Bool.eq_false_iff.mpr hf
      simp only [hff, Bool.and_false, Bool.false_eq_true, if_false]
      by_cases hroot : lastSeg target = ""
      · rw [if_pos hroot, if_pos hroot]
      · rw [if_neg hroot, if_neg hroot]
        simp only [List.find?_append, List.find?_map, Function.comp_def]
        cases h1 : ([".js", ".jsx", ".ts", ".tsx", ".json"] : List String).find?
            (fun ext => fs.pexists (withSuffix target ext)) with
        | some e => rfl
        | none =>
          cases h2 : ([".js", ".jsx", ".ts", ".tsx", ".json"] : List String).find?
              (fun ext => fs.pexists (target ++ ["index" ++ ext])) with
          | some e => rfl
          | none => rfl
  · have hs2 : strStartsWith importPath "." = false := by
      cases h : strStartsWith importPath "."
      · rfl
      · exact absurd h hs
    simp [hs2]

/-- C8: single-file analysis never raises past the extractor boundary: an
unreadable or undecodable file yields the empty result, and so does any
file whose extension is not one of `.py .pyi .js .jsx .ts .tsx`. -/
theorem C8_extractor_boundary (fs : FS) (root : FPath) (filePath : FPath) :
    (fs.readText filePath = none → analyze_file fs root filePath = ([], [])) ∧
    (pySuffix (lastSeg filePath) ∉
        ([".py", ".pyi", ".js", ".jsx", ".ts", ".tsx"] : List String) →
      analyze_file fs root filePath = ([], [])) := by
  constructor
  · intro h
    unfold analyze_file
    rw [h]
  · intro h
    unfold analyze_file
    cases hr : fs.readText filePath with
    | none => rfl
    | some content =>
      have h1 : (([".py", ".pyi"] : List String).contains (pySuffix (lastSeg filePath)))
          = false := by
        rw [Bool.eq_false_iff]
        intro hc
        refine h ?_
        have hm := List.elem_iff.mp hc
        simp only [List.mem_cons, List.not_mem_nil, or_false] at hm
        simp only [List.mem_cons, List.not_mem_nil, or_false]
        tauto
      have h2 : (([".js", ".jsx", ".ts", ".tsx"] : List String).contains
          (pySuffix (lastSeg filePath))) = false := by
        rw [Bool.eq_false_iff]
        intro hc
        refine h ?_
        have hm := List.elem_iff.mp hc
        simp only [List.mem_cons, List.not_mem_nil, or_false] at hm
        simp only [List.mem_cons, List.not_mem_nil, or_false]
        tauto
      simp only [h1, h2, Bool.false_eq_true, if_false]

/-- C8 witness: the unreadable `bad.py` and the unsupported `file.txt`
both analyze to the empty result. -/
theorem C8_witness :
    (fsC8.readText ["bad.py"] = none ∧ analyze_file fsC8 [] ["bad.py"] = ([], [])) ∧
    (pySuffix (lastSeg ["file.txt"]) ∉
        ([".py", ".pyi", ".js", ".jsx", ".ts", ".tsx"] : List String) ∧
      analyze_file fsC8 [] ["file.txt"] = ([], [])) :=
  ⟨⟨by decide, (C8_extractor_boundary fsC8 [] ["bad.py"]).1 (by decide)⟩,
   ⟨by decide, (C8_extractor_boundary fsC8 [] ["file.txt"]).2 (by decide)⟩⟩

/-- C2: cycle detection.  (i) For every forward map, fuel, file, path
stack and state, when the imported file is already on the current path
stack the DFS reports the stack suffix from that file's position with the
file appended once, and changes nothing else (no recursion).  (ii) The
two-node map returns exactly one cycle containing both files, in either
key order.  (iii) Every key order of the three-node cycle returns exactly
one cycle of length 3 plus the closing repeat. -/
theorem C2_cycle_detection :
    (∀ (g : List (String × List String)) (fuel : Nat) (f : String)
        (path : List String) (st : DfsState), path.contains f = true →
      dfs g fuel f path st =
        { st with cycles := st.cycles ++ [path.drop (path.indexOf f) ++ [f]] }) ∧
    detect_circular_dependencies [("a.py", ["b.py"]), ("b.py", ["a.py"])] =
      [["a.py", "b.py", "a.py"]] ∧
    detect_circular_dependencies [("b.py", ["a.py"]), ("a.py", ["b.py"])] =
      [["b.py", "a.py", "b.py"]] ∧
    ([[("a.py", ["b.py"]), ("b.py", ["c.py"]), ("c.py", ["a.py"])],
      [("a.py", ["b.py"]), ("c.py", ["a.py"]), ("b.py", ["c.py"])],
      [("b.py", ["c.py"]), ("a.py", ["b.py"]), ("c.py", ["a.py"])],
      [("b.py", ["c.py"]), ("c.py", ["a.py"]), ("a.py", ["b.py"])],
      [("c.py", ["a.py"]), ("a.py", ["b.py"]), ("b.py", ["c.py"])],
      [("c.py", ["a.py"]), ("b.py", ["c.py"]), ("a.py", ["b.py"])]].all
      (fun g => match detect_circular_dependencies g with
        | [c] => c.length = 4 && c.contains "a.py" && c.contains "b.py" &&
            c.contains "c.py" && decide (c.headD "" = c.getLastD "")
        | _ => false)) = true := by
  refine ⟨?_, by decide, by decide, by decide⟩
  intro g fuel f path st h
  rw [dfs.eq_def]
  simp only [h, if_true]

/-- C2 witness: the DFS at stack `[A, B, C]` meeting the edge back to `B`
reports exactly the cycle `[B, C, B]` and leaves the state otherwise
unchanged. -/
theorem C2_witness :
    (["a.py", "b.py", "c.py"].contains "b.py" = true) ∧
    dfs [] 5 "b.py" ["a.py", "b.py", "c.py"] (DfsState.mk [] []) =
      DfsState.mk [] [["b.py", "c.py", "b.py"]] :=
  ⟨by decide,
   (C2_cycle_detection.1 [] 5 "b.py" ["a.py", "b.py", "c.py"]
     (DfsState.mk [] []) (by decide)).trans (by decide)⟩


/-- C9 counterexample: a generated diagram whose node label is 33
characters long but has only two `/`-segments is NOT shortened, contrary
to the claim that every label longer than 30 characters is shortened. -/
theorem C9_counterexample :
    generate_mermaid_diagram [("main.py", [labelC9])] [(labelC9, ["main.py"])] 20 =
      "```mermaid\ngraph TD;\n  N0[" ++ "\"" ++ labelC9 ++ "\"" ++ "];\n```" ∧
    30 < labelC9.length ∧
    mermaidDisplayName labelC9 = labelC9 ∧
    labelC9 ≠ (splitOnChar '/' labelC9).headD "" ++ "/.../" ++
      (splitOnChar '/' labelC9).getLastD "" := by
  exact ⟨by decide, by decide, by decide, by decide⟩

/-- C9 (amended): the display label of every node equals the file's
relative path, shortened to `first_segment/.../last_segment` exactly when
the path is longer than 30 characters AND has more than two `/`-separated
segments; a three-segment 31-character path is rendered shortened in an
actual diagram. -/
theorem C9_label_rule :
    (∀ file : String, mermaidDisplayName file =
      if 30 < file.length ∧ 2 < (splitOnChar '/' file).length then
        (splitOnChar '/' file).headD "" ++ "/.../" ++ (splitOnChar '/' file).getLastD ""
      else file) ∧
    (∀ nodeId file, mermaidNodeLine nodeId file =
      "  " ++ nodeId ++ "[" ++ "\"" ++ mermaidDisplayName file ++ "\"" ++ "];") ∧
    generate_mermaid_diagram [("main.py", [labelC9s])] [(labelC9s, ["main.py"])] 20 =
      "```mermaid\ngraph TD;\n  N0[" ++ "\"" ++ "src/.../averylongname.js" ++ "\"" ++
        "];\n```" := by
  refine ⟨?_, fun _ _ => rfl, by decide⟩
  intro file
  unfold mermaidDisplayName
  by_cases h1 : 30 < file.length
  · by_cases h2 : 2 < (splitOnChar '/' file).length
    · rw [if_pos h1, if_pos h2, if_pos ⟨h1, h2⟩]
    · rw [if_pos h1, if_neg h2, if_neg (fun hc : _ ∧ _ => h2 hc.2)]
  · rw [if_neg h1, if_neg (fun hc : _ ∧ _ => h1 hc.1)]

/-- Membership in a Python-set model built by folding `setAdd`. -/
theorem mem_setAdd {acc : List String} {a x : String} :
    x ∈ setAdd acc a ↔ x ∈ acc ∨ x = a := by
  unfold setAdd
  cases hc : acc.contains a with
  | true =>
    simp only [hc, if_true]
    constructor
    · exact Or.inl
    · rintro (hx | rfl)
      · exact hx
      · exact List.elem_iff.mp hc
  | false =>
    simp only [hc, Bool.false_eq_true, if_false, List.mem_append,
      List.mem_singleton]

/-- Folding `setAdd` over a list collects exactly the members. -/
theorem mem_foldl_setAdd (l : List String) :
    ∀ (acc : List String) (x : String),
      x ∈ l.foldl setAdd acc ↔ x ∈ acc ∨ x ∈ l := by
  induction l with
  | nil => simp
  | cons a l ih =>
    intro acc x
    simp only [List.foldl_cons]
    rw [ih, mem_setAdd, List.mem_cons]
    tauto

/-- Membership characterization of the orphan computation: a path is in
the orphan list iff it was scanned, is never an import target, and matches
neither heuristic. -/
theorem mem_orphanCore_iff (x : String) (rels : List String)
    (fwd : List (String × List String)) :
    x ∈ orphanCore rels fwd ↔
      x ∈ rels ∧ (∀ e ∈ fwd, x ∉ e.2) ∧
        entry_point_match x = false ∧ config_match x = false := by
  unfold orphanCore
  rw [List.mem_insertionSort, List.mem_filter, List.mem_filter]
  simp only [mem_foldl_setAdd, List.not_mem_nil, false_or, Bool.and_eq_true,
    Bool.not_eq_true', decide_eq_true_eq]
  constructor
  · rintro ⟨⟨hx, himp⟩, he, hcf⟩
    refine ⟨hx, ?_, Bool.eq_false_iff.mpr he, Bool.eq_false_iff.mpr hcf⟩
    intro e hef hxe
    apply himp
    refine List.elem_iff.mpr ?_
    rw [mem_foldl_setAdd]
    exact Or.inr (List.mem_flatten.mpr ⟨e.2, List.mem_map.mpr ⟨e, hef, rfl⟩, hxe⟩)
  · rintro ⟨hx, hni, he, hcf⟩
    refine ⟨⟨hx, ?_⟩, Bool.eq_false_iff.mp he, Bool.eq_false_iff.mp hcf⟩
    intro hc
    have hm := List.elem_iff.mp hc
    rw [mem_foldl_setAdd] at hm
    rcases hm with h | h
    · exact List.not_mem_nil _ h
    · rcases List.mem_flatten.mp h with ⟨l, hl, hxl⟩
      rcases List.mem_map.mp hl with ⟨e, hef, rfl⟩
      exact hni e hef hxl

/-- The orphan list is alphabetically sorted. -/
theorem orphanCore_sorted (rels : List String)
    (fwd : List (String × List String)) :
    (orphanCore rels fwd).Sorted strRel :=
  List.sorted_insertionSort strRel _

/-- C4: the orphan list equals the scanned files never named as
an import target, minus the entry-point and config heuristics, sorted
alphabetically; `index.js` (as a root-relative path) never appears in any
orphan output, while a scanned, unimported `orphan_module.py` always
does. -/
theorem C4_orphan_list :
    (∀ (x : String) (rels : List String) (fwd : List (String × List String)),
      x ∈ orphanCore rels fwd ↔
        x ∈ rels ∧ (∀ e ∈ fwd, x ∉ e.2) ∧
          entry_point_match x = false ∧ config_match x = false) ∧
    (∀ rels fwd, (orphanCore rels fwd).Sorted strRel) ∧
    (∀ (fs : FS) (root : FPath) (files : List FPath)
        (fwd : List (String × List String)) (out : List String),
      find_orphaned_files fs root files fwd = Except.ok out →
      "index.js" ∉ out) ∧
    (∀ rels fwd, "orphan_module.py" ∈ rels →
      (∀ e ∈ fwd, "orphan_module.py" ∉ e.2) →
      "orphan_module.py" ∈ orphanCore rels fwd) := by
  refine ⟨mem_orphanCore_iff, orphanCore_sorted, ?_, ?_⟩
  · intro fs root files fwd out hok hmem
    unfold find_orphaned_files at hok
    cases hr : relsOfFiles fs root files with
    | ok rels =>
      rw [hr] at hok
      cases hok
      have h := (mem_orphanCore_iff _ rels fwd).mp hmem
      exact absurd h.2.2.1 (by decide)
    | error e => rw [hr] at hok; cases hok
  · intro rels fwd h1 h2
    exact (mem_orphanCore_iff _ rels fwd).mpr ⟨h1, h2, by decide, by decide⟩


/-- C4 witness: a scanned, unimported `orphan_module.py` is reported, and
a concrete `find_orphaned_files` output excludes the scanned, unimported
root-level `index.js`. -/
theorem C4_witness :
    ("orphan_module.py" ∈ orphanCore ["index.js", "orphan_module.py"] []) ∧
    "index.js" ∉ (["orphan_module.py"] : List String) :=
  ⟨C4_orphan_list.2.2.2 ["index.js", "orphan_module.py"] [] (by decide)
     (by simp),
   C4_orphan_list.2.2.1 fsC4 [] [["index.js"], ["orphan_module.py"]] []
     ["orphan_module.py"] (by rfl)⟩

/-- C10: the entry-point patterns are anchored to the whole root-relative
path — no path containing a directory separator matches, so a scanned,
unimported `src/index.js` IS reported — while the config patterns are
unanchored and exclude matches at any depth (`.../package.json`). -/
theorem C10_pattern_anchoring :
    (∀ d f : String, entry_point_match (d ++ "/" ++ f) = false) ∧
    (∀ p : String, config_match (p ++ "package.json") = true) ∧
    (∀ rels fwd, "src/index.js" ∈ rels →
      (∀ e ∈ fwd, "src/index.js" ∉ e.2) →
      "src/index.js" ∈ orphanCore rels fwd) ∧
    orphanCore ["src/index.js", "src/package.json"] [] = ["src/index.js"] := by
  refine ⟨?_, ?_, ?_, by decide⟩
  · intro d f
    rw [Bool.eq_false_iff]
    intro hc
    unfold entry_point_match at hc
    have hm := List.elem_iff.mp hc
    have hslash : '/' ∈ (d ++ "/" ++ f).data := by
      simp [String.data_append]
    simp only [List.mem_cons, List.not_mem_nil, or_false] at hm
    rcases hm with h | h | h | h | h | h | h | h | h | h | h | h | h | h | h | h | h | h <;>
      (rw [h] at hslash; revert hslash; decide)
  · intro p
    have hsuf : strEndsWith (p ++ "package.json") "package.json" = true := by
      unfold strEndsWith
      rw [List.isSuffixOf_iff_suffix]
      have hdata : (p ++ "package.json").toList =
          p.toList ++ "package.json".toList := by
        simp [String.toList, String.data_append]
      rw [hdata]
      exact List.suffix_append _ _
    unfold config_match
    rw [hsuf]
    rfl
  · intro rels fwd h1 h2
    exact (mem_orphanCore_iff _ rels fwd).mpr ⟨h1, h2, by decide, by decide⟩

/-- C10 witness: a concrete subdirectory `src/index.js`, scanned and
unimported, is reported as an orphan. -/
theorem C10_witness :
    "src/index.js" ∈ orphanCore ["src/index.js", "main.py"]
      [("main.py", ["util.py"])] :=
  C10_pattern_anchoring.2.2.1 ["src/index.js", "main.py"]
    [("main.py", ["util.py"])] (by decide) (by decide)

/-- C7: centrality and core files.  (i) Every core-file entry's score is
the full length of that file's importer list (duplicate importer entries
counted, since the score is the list length).  (ii) The ranking is sorted
by descending score.  (iii) At most 10 entries are returned, and (iv) when
at most 10 files have importers the core list is the whole ranking.
(v) The stable sort keeps insertion order for tied scores: any pair in
insertion order with equal scores stays in that order in the ranking. -/
theorem C7_core_files :
    (∀ (rev : List (String × List String)) (p : String × Nat),
      p ∈ core_files_of rev → ∃ e ∈ rev, p = (e.1, e.2.length)) ∧
    (∀ rev, (core_files_of rev).Sorted coreRel) ∧
    (∀ rev, (core_files_of rev).length ≤ 10) ∧
    (∀ rev, rev.length ≤ 10 →
      (core_files_of rev).Perm (centrality_items rev)) ∧
    (∀ (rev : List (String × List String)) (e1 e2 : String × Nat),
      List.Sublist [e1, e2] (centrality_items rev) → e1.2 = e2.2 →
      List.Sublist [e1, e2] ((centrality_items rev).insertionSort coreRel)) := by
  refine ⟨?_, ?_, ?_, ?_, ?_⟩
  · intro rev p hp
    have h1 := List.mem_of_mem_take hp
    rw [List.mem_insertionSort] at h1
    rcases List.mem_map.mp h1 with ⟨e, he, rfl⟩
    exact ⟨e, he, rfl⟩
  · intro rev
    exact (List.sorted_insertionSort coreRel _).sublist (List.take_sublist _ _)
  · intro rev
    unfold core_files_of
    rw [List.length_take]
    exact min_le_left _ _
  · intro rev h
    unfold core_files_of
    rw [List.take_of_length_le]
    · exact List.perm_insertionSort coreRel _
    · rw [List.length_insertionSort]
      unfold centrality_items
      rw [List.length_map]
      exact h
  · intro rev e1 e2 hsub htie
    refine List.pair_sublist_insertionSort ?_ hsub
    have : coreRel e1 e2 := by
      unfold coreRel
      rw [htie]
    exact this

/-- C7 witness: with two importer lists of equal length, the full ranking
is returned (fewer than 10 entries have importers) and the tied pair keeps
insertion order in the sorted ranking. -/
theorem C7_witness :
    ((core_files_of [("a", ["x"]), ("b", ["y"])]).Perm
      (centrality_items [("a", ["x"]), ("b", ["y"])])) ∧
    List.Sublist [("a", 1), ("b", 1)]
      ((centrality_items [("a", ["x"]), ("b", ["y"])]).insertionSort coreRel) :=
  ⟨C7_core_files.2.2.2.1 _ (by decide),
   C7_core_files.2.2.2.2 [("a", ["x"]), ("b", ["y"])] ("a", 1) ("b", 1)
     (List.Sublist.refl _) rfl⟩

/-- C6: `analyze_project` resets the three maps at the start of each call,
so its behavior is independent of the incoming instance state, and calling
it twice in succession with the same input yields the identical result. -/
theorem C6_idempotent :
    (∀ (fs : FS) (root : FPath) (files : List FPath) (s s' : BuildState),
      analyze_project fs root s files = analyze_project fs root s' files) ∧
    (∀ (fs : FS) (root : FPath) (files : List FPath) (st0 st1 : BuildState)
        (r : AnalysisResult),
      analyze_project fs root st0 files = Except.ok (st1, r) →
      analyze_project fs root st1 files = Except.ok (st1, r)) :=
  ⟨fun _ _ _ _ _ => rfl, fun _ _ _ _ _ _ h => h⟩


/-- C6 witness: a concrete first run, and the second run reproducing its
result bit for bit. -/
theorem C6_witness :
    analyze_project fsC1 [] (BuildState.mk [] [] []) [["m.py"]] = Except.ok (stC6, rC6) ∧
    analyze_project fsC1 [] stC6 [["m.py"]] = Except.ok (stC6, rC6) :=
  have h : analyze_project fsC1 [] (BuildState.mk [] [] []) [["m.py"]] =
      Except.ok (stC6, rC6) := by rfl
  ⟨h, C6_idempotent.2 fsC1 [] [["m.py"]] (BuildState.mk [] [] []) stC6 rC6 h⟩

/-- The `any` guard of the dict operations tests key membership. -/
theorem any_key_iff {α : Type} (m : List (String × α)) (k : String) :
    (m.any (fun e => e.1 = k)) = true ↔ k ∈ dictKeys m := by
  rw [List.any_eq_true]
  unfold dictKeys
  constructor
  · rintro ⟨e, he, hek⟩
    exact List.mem_map.mpr ⟨e, he, of_decide_eq_true hek⟩
  · intro h
    rcases List.mem_map.mp h with ⟨e, he, hek⟩
    exact ⟨e, he, decide_eq_true hek⟩

/-- `find?` misses an absent key. -/
theorem find?_key_eq_none {α : Type} (m : List (String × α)) (k : String)
    (h : k ∉ dictKeys m) : m.find? (fun e => e.1 = k) = none := by
  rw [List.find?_eq_none]
  intro e he hk
  exact h (List.mem_map.mpr ⟨e, he, of_decide_eq_true hk⟩)

/-- Lookup of an absent key yields `none`. -/
theorem dictGet_eq_none {α : Type} (m : List (String × α)) (k : String)
    (h : k ∉ dictKeys m) : dictGet m k = none := by
  unfold dictGet
  rw [find?_key_eq_none m k h]
  rfl

/-- Lookup of a present key succeeds. -/
theorem dictGet_isSome_of_key {α : Type} (m : List (String × α)) (k : String)
    (h : k ∈ dictKeys m) : ∃ v, dictGet m k = some v := by
  unfold dictGet
  rcases List.mem_map.mp h with ⟨e, he, hek⟩
  cases hf : m.find? (fun e => e.1 = k) with
  | some e2 => exact ⟨e2.2, rfl⟩
  | none =>
    rw [List.find?_eq_none] at hf
    exact absurd (decide_eq_true hek) (hf e he)

/-- Assigning a fresh key appends it. -/
theorem dictSet_fresh {α : Type} (m : List (String × α)) (k : String) (v : α)
    (h : k ∉ dictKeys m) : dictSet m k v = m ++ [(k, v)] := by
  unfold dictSet
  exact if_neg (fun hc => h ((any_key_iff m k).mp hc))

/-- Lookup in a map extended with a fresh key. -/
theorem dictGetD_append {α : Type} (m : List (String × α)) (k b : String)
    (v d : α) (h : k ∉ dictKeys m) :
    dictGetD (m ++ [(k, v)]) b d = if b = k then v else dictGetD m b d := by
  unfold dictGetD dictGet
  rw [List.find?_append]
  by_cases hbk : b = k
  · subst hbk
    rw [find?_key_eq_none m b h]
    simp
  · have hsing : ([((k, v) : String × α)].find? (fun e => e.1 = b)) = none := by
      rw [List.find?_eq_none]
      intro e he hk2
      rcases List.mem_singleton.mp he with rfl
      exact hbk (of_decide_eq_true hk2).symm
    rw [hsing, if_neg hbk, Option.or_none]

/-- Keys of a map extended by one entry. -/
theorem dictKeys_append {α : Type} (m : List (String × α)) (k : String) (v : α) :
    dictKeys (m ++ [(k, v)]) = dictKeys m ++ [k] := by
  unfold dictKeys
  rw [List.map_append]
  rfl

/-- One step of the association-list lookup. -/
theorem dictGet_cons {α : Type} (e : String × α) (m : List (String × α))
    (a : String) :
    dictGet (e :: m) a = if e.1 = a then some e.2 else dictGet m a := by
  unfold dictGet
  rw [List.find?_cons]
  by_cases h : e.1 = a
  · simp [h]
  · simp [h]

/-- Lookup after the in-place update branch of `dictAppend`. -/
theorem dictGet_map_upd (k v : String) :
    ∀ (m : List (String × List String)) (a : String),
    dictGet (m.map (fun e => if e.1 = k then (e.1, e.2 ++ [v]) else e)) a =
      (dictGet m a).map (fun l => if a = k then l ++ [v] else l) := by
  intro m
  induction m with
  | nil => intro a; rfl
  | cons e m ih =>
    intro a
    rw [List.map_cons, dictGet_cons, dictGet_cons]
    have hfst : ((if e.1 = k then (e.1, e.2 ++ [v]) else e) : String × List String).1
        = e.1 := by
      by_cases h : e.1 = k
      · rw [if_pos h]
      · rw [if_neg h]
    rw [hfst]
    by_cases hea : e.1 = a
    · rw [if_pos hea, if_pos hea]
      by_cases hek : e.1 = k
      · rw [if_pos hek]
        have hak : a = k := hea ▸ hek
        simp [hak]
      · rw [if_neg hek]
        have hak : ¬ a = k := fun h2 => hek (hea.trans h2)
        simp [hak]
    · rw [if_neg hea, if_neg hea]
      exact ih a

/-- Lookup after `dictAppend`: the appended entry lands at key `k`. -/
theorem dictGetD_dictAppend (m : List (String × List String)) (k v a : String) :
    dictGetD (dictAppend m k v) a [] =
      if a = k then dictGetD m a [] ++ [v] else dictGetD m a [] := by
  unfold dictAppend
  by_cases hk : (m.any (fun e => e.1 = k)) = true
  · rw [if_pos hk]
    unfold dictGetD
    rw [dictGet_map_upd]
    by_cases hak : a = k
    · rcases dictGet_isSome_of_key m a (hak ▸ (any_key_iff m k).mp hk) with ⟨l, hl⟩
      rw [hl, if_pos hak]
      simp [hak]
    · cases hg : dictGet m a with
      | none => rw [if_neg hak]; simp [hak]
      | some l => rw [if_neg hak]; simp [hak]
  · rw [if_neg hk]
    have hnk : k ∉ dictKeys m := fun hm => hk ((any_key_iff m k).mpr hm)
    rw [dictGetD_append m k a [v] [] hnk]
    by_cases hak : a = k
    · subst hak
      rw [if_pos rfl, if_pos rfl]
      unfold dictGetD
      rw [dictGet_eq_none m a hnk]
      rfl
    · rw [if_neg hak, if_neg hak]

/-- Reverse-map lookup after recording one importer `rel` for every
occurrence in `ii`: exactly count-many copies are appended. -/
theorem dictGetD_foldl_dictAppend (rel : String) :
    ∀ (ii : List String) (m : List (String × List String)) (a : String),
    dictGetD (ii.foldl (fun acc imp => dictAppend acc imp rel) m) a [] =
      dictGetD m a [] ++ List.replicate (ii.count a) rel := by
  intro ii
  induction ii with
  | nil =>
    intro m a
    simp
  | cons imp ii ih =>
    intro m a
    rw [List.foldl_cons, ih, dictGetD_dictAppend]
    by_cases hai : a = imp
    · subst hai
      rw [if_pos rfl, List.count_cons_self, List.append_assoc,
        List.replicate_succ, List.singleton_append]
    · rw [if_neg hai, List.count_cons_of_ne hai]

/-- `dictAppend` never produces an empty importer list. -/
theorem dictAppend_nonempty (m : List (String × List String)) (k v : String)
    (h : ∀ e ∈ m, e.2 ≠ []) : ∀ e ∈ dictAppend m k v, e.2 ≠ [] := by
  unfold dictAppend
  by_cases hk : (m.any (fun e => e.1 = k)) = true
  · rw [if_pos hk]
    intro e he
    rcases List.mem_map.mp he with ⟨e0, he0, rfl⟩
    by_cases h0 : e0.1 = k
    · simp [h0]
    · simp only [h0, if_false]
      exact h e0 he0
  · rw [if_neg hk]
    intro e he
    rcases List.mem_append.mp he with h1 | h1
    · exact h e h1
    · rw [List.mem_singleton.mp h1]
      simp

/-- Folding `dictAppend` preserves nonemptiness of the importer lists. -/
theorem foldl_dictAppend_nonempty (rel : String) :
    ∀ (ii : List String) (m : List (String × List String)),
    (∀ e ∈ m, e.2 ≠ []) →
    ∀ e ∈ ii.foldl (fun acc imp => dictAppend acc imp rel) m, e.2 ≠ [] := by
  intro ii
  induction ii with
  | nil => intro m h; exact h
  | cons imp ii ih =>
    intro m h
    rw [List.foldl_cons]
    exact ih _ (dictAppend_nonempty m imp rel h)

/-- Invariant preservation along the `analyze_project` loop: starting from
a state whose forward keys avoid the upcoming pairwise-distinct relative
paths and which satisfies the transpose, nonemptiness and
values-are-forward-keys invariants, a successful run ends in a state
satisfying the transpose and nonemptiness invariants. -/
theorem projectLoop_inv (fs : FS) (root : FPath) :
    ∀ (files : List FPath) (st st' : BuildState),
    projectLoop fs root files st = Except.ok st' →
    (scanRels fs root files).Nodup →
    (∀ k ∈ dictKeys st.imports_by_file, some k ∉ scanRels fs root files) →
    (∀ a b, (dictGetD st.imported_by a []).count b =
      (dictGetD st.imports_by_file b []).count a) →
    (∀ e ∈ st.imported_by, e.2 ≠ []) →
    (∀ a, ∀ b ∈ dictGetD st.imported_by a [], b ∈ dictKeys st.imports_by_file) →
    ((∀ a b, (dictGetD st'.imported_by a []).count b =
      (dictGetD st'.imports_by_file b []).count a) ∧
     (∀ e ∈ st'.imported_by, e.2 ≠ [])) := by
  intro files
  induction files with
  | nil =>
    intro st st' hloop hnd hkeys hA hB hC
    have hst : st = st' := Except.ok.inj hloop
    subst hst
    exact ⟨hA, hB⟩
  | cons fp rest ih =>
    intro st st' hloop hnd hkeys hA hB hC
    have hloopeq : projectLoop fs root (fp :: rest) st =
        (match projectStep fs root st fp with
          | Except.ok st2 => projectLoop fs root rest st2
          | Except.error e => Except.error e) := rfl
    by_cases hisf : fs.isFile fp = true
    · have hscan : scanRels fs root (fp :: rest) =
          relativeTo root fp :: scanRels fs root rest := by
        unfold scanRels
        rw [List.filter_cons_of_pos hisf, List.map_cons]
      rw [hscan] at hnd hkeys
      cases hrel : relativeTo root fp with
      | none =>
        have hstep : projectStep fs root st fp = Except.error () := by
          unfold projectStep
          rw [if_neg (not_not_intro hisf), hrel]
        rw [hloopeq, hstep] at hloop
        cases hloop
      | some rel =>
        rw [hrel] at hnd hkeys
        by_cases hemp : ((analyze_file fs root fp).1.isEmpty &&
            (analyze_file fs root fp).2.isEmpty) = true
        · have hstep : projectStep fs root st fp = Except.ok st := by
            unfold projectStep
            rw [if_neg (not_not_intro hisf), hrel]
            exact if_pos hemp
          rw [hloopeq, hstep] at hloop
          exact ih st st' hloop hnd.of_cons
            (fun k hk hmem => hkeys k hk (List.mem_cons_of_mem _ hmem))
            hA hB hC
        · have hstep : projectStep fs root st fp = Except.ok
              (BuildState.mk (dictSet st.imports_by_file rel (analyze_file fs root fp).1)
                ((analyze_file fs root fp).1.foldl
                  (fun m imp => dictAppend m imp rel) st.imported_by)
                (dictSet st.external_imports rel (analyze_file fs root fp).2)) := by
            unfold projectStep
            rw [if_neg (not_not_intro hisf), hrel]
            exact if_neg hemp
          rw [hloopeq, hstep] at hloop
          have hfresh : rel ∉ dictKeys st.imports_by_file := by
            intro hm
            exact hkeys rel hm (List.mem_cons_self _ _)
          have hfwdeq : dictSet st.imports_by_file rel (analyze_file fs root fp).1 =
              st.imports_by_file ++ [(rel, (analyze_file fs root fp).1)] :=
            dictSet_fresh _ _ _ hfresh
          have hgetF : ∀ b, dictGetD
              (dictSet st.imports_by_file rel (analyze_file fs root fp).1) b [] =
              if b = rel then (analyze_file fs root fp).1
              else dictGetD st.imports_by_file b [] := by
            intro b
            rw [hfwdeq]
            exact dictGetD_append _ _ _ _ _ hfresh
          have hgetR : ∀ a, dictGetD
              ((analyze_file fs root fp).1.foldl
                (fun m imp => dictAppend m imp rel) st.imported_by) a [] =
              dictGetD st.imported_by a [] ++
                List.replicate ((analyze_file fs root fp).1.count a) rel :=
            fun a => dictGetD_foldl_dictAppend rel _ _ a
          have hkeysF : dictKeys
              (dictSet st.imports_by_file rel (analyze_file fs root fp).1) =
              dictKeys st.imports_by_file ++ [rel] := by
            rw [hfwdeq]
            exact dictKeys_append _ _ _
          have hA2 : ∀ a b, (dictGetD
              ((analyze_file fs root fp).1.foldl
                (fun m imp => dictAppend m imp rel) st.imported_by) a []).count b =
              (dictGetD (dictSet st.imports_by_file rel
                (analyze_file fs root fp).1) b []).count a := by
            intro a b
            rw [hgetR a, hgetF b, List.count_append, List.count_replicate]
            by_cases hbrel : b = rel
            · rw [if_pos (beq_iff_eq.mpr hbrel.symm), if_pos hbrel]
              have hzero : (dictGetD st.imported_by a []).count b = 0 := by
                rw [List.count_eq_zero]
                intro hmem
                exact hfresh (hbrel ▸ hC a b hmem)
              rw [hzero, Nat.zero_add]
            · rw [if_neg (fun hbe => hbrel (beq_iff_eq.mp hbe).symm), if_neg hbrel,
                Nat.add_zero]
              exact hA a b
          have hB2 : ∀ e ∈ (analyze_file fs root fp).1.foldl
              (fun m imp => dictAppend m imp rel) st.imported_by, e.2 ≠ [] :=
            foldl_dictAppend_nonempty rel _ _ hB
          have hC2 : ∀ a, ∀ b ∈ dictGetD
              ((analyze_file fs root fp).1.foldl
                (fun m imp => dictAppend m imp rel) st.imported_by) a [],
              b ∈ dictKeys (dictSet st.imports_by_file rel
                (analyze_file fs root fp).1) := by
            intro a b hmem
            rw [hgetR a] at hmem
            rw [hkeysF]
            rcases List.mem_append.mp hmem with h | h
            · exact List.mem_append_left _ (hC a b h)
            · rw [List.eq_of_mem_replicate h]
              exact List.mem_append_right _ (List.mem_singleton.mpr rfl)
          have hkeys2 : ∀ k ∈ dictKeys (dictSet st.imports_by_file rel
              (analyze_file fs root fp).1), some k ∉ scanRels fs root rest := by
            intro k hk
            rw [hkeysF] at hk
            rcases List.mem_append.mp hk with h | h
            · exact fun hmem => hkeys k h (List.mem_cons_of_mem _ hmem)
            · rw [List.mem_singleton.mp h]
              exact (List.nodup_cons.mp hnd).1
          exact ih _ st' hloop (List.nodup_cons.mp hnd).2 hkeys2 hA2 hB2 hC2
    · have hscan : scanRels fs root (fp :: rest) = scanRels fs root rest := by
        unfold scanRels
        rw [List.filter_cons_of_neg hisf]
      rw [hscan] at hnd hkeys
      have hstep : projectStep fs root st fp = Except.ok st := by
        unfold projectStep
        rw [if_pos hisf]
      rw [hloopeq, hstep] at hloop
      exact ih st st' hloop hnd hkeys hA hB hC

/-- C1 counterexample: running `analyze_project` on a candidate list that
contains `m.py` twice records `m.py` twice in `reverse["a.py"]` while
`forward["m.py"]` holds `a.py` once, so the multiset transpose fails for
arbitrary input lists. -/
theorem C1_counterexample :
    (analyze_project fsC1 [] (BuildState.mk [] [] []) [["m.py"], ["m.py"]]).map
      (fun p => ((dictGetD p.2.imported_by "a.py" []).count "m.py",
                 (dictGetD p.2.imports_by_file "m.py" []).count "a.py")) =
      Except.ok (2, 1) ∧ (2 : Nat) ≠ 1 :=
  ⟨rfl, by decide⟩

/-- C1 (amended): when the scanned regular files have pairwise distinct
root-relative paths, the reverse map produced by `analyze_project` is the
exact multiset transpose of the forward map — `b` appears in `reverse[a]`
exactly as many times as `a` appears in `forward[b]` — and every key of
the reverse map has at least one importer entry (a nonempty list). -/
theorem C1_transpose (fs : FS) (root : FPath) (s0 : BuildState)
    (files : List FPath) (st : BuildState) (r : AnalysisResult)
    (hnd : (scanRels fs root files).Nodup)
    (hok : analyze_project fs root s0 files = Except.ok (st, r)) :
    (∀ a b : String, (dictGetD r.imported_by a []).count b =
      (dictGetD r.imports_by_file b []).count a) ∧
    (∀ e ∈ r.imported_by, e.2 ≠ []) := by
  unfold analyze_project at hok
  cases hloop : projectLoop fs root files (BuildState.mk [] [] []) with
  | error e => rw [hloop] at hok; cases hok
  | ok st2 =>
    rw [hloop] at hok
    have hok2 : (match find_orphaned_files fs root files st2.imports_by_file with
        | Except.error e => (Except.error e : Except Unit (BuildState × AnalysisResult))
        | Except.ok orph =>
          Except.ok (st2,
            { imports_by_file := st2.imports_by_file
              imported_by := st2.imported_by
              external_imports := st2.external_imports
              core_files := core_files_of st2.imported_by
              circular_dependencies := detect_circular_dependencies st2.imports_by_file
              orphaned_files := orph })) = Except.ok (st, r) := hok
    cases horph : find_orphaned_files fs root files st2.imports_by_file with
    | error e => rw [horph] at hok2; cases hok2
    | ok orph =>
      rw [horph] at hok2
      have hpair := Except.ok.inj hok2
      have hr : AnalysisResult.mk st2.imports_by_file st2.imported_by
          st2.external_imports (core_files_of st2.imported_by)
          (detect_circular_dependencies st2.imports_by_file) orph = r :=
        congrArg Prod.snd hpair
      rw [← hr]
      refine projectLoop_inv fs root files (BuildState.mk [] [] []) st2 hloop hnd
        ?_ ?_ ?_ ?_
      · intro k hk
        exact absurd hk (List.not_mem_nil k)
      · intro a b
        rfl
      · intro e he
        exact absurd he (List.not_mem_nil e)
      · intro a b hb
        exact absurd hb (List.not_mem_nil b)

/-- C1 witness: the single-file run on `fsC1` has distinct relative paths
and satisfies the transpose equality at `a = a.py`, `b = m.py`. -/
theorem C1_witness :
    (scanRels fsC1 [] [["m.py"]]).Nodup ∧
    (dictGetD rC6.imported_by "a.py" []).count "m.py" =
      (dictGetD rC6.imports_by_file "m.py" []).count "a.py" :=
  ⟨by decide,
   (C1_transpose fsC1 [] (BuildState.mk [] [] []) [["m.py"]] stC6 rC6
     (by decide) rfl).1 "a.py" "m.py"⟩
